import Mathlib

/-!
# gitpoll: build-config watcher, repository watcher and webhook launcher

A shallow embedding of `pkg/watcher/repository/repository.go`,
`pkg/watcher/buildcfg/buildcfg.go` and `pkg/hook/handler.go`.

Conventions of the embedding

* A Go `error` value is an `Option String` (`none` is `nil`).
* A Go function that may panic returns a `Panics` value.
* Calls into collaborators (git, the command runner, the API client) take
  their results from an explicit environment and are recorded, in order, in a
  list of effects; a listener callback is recorded as an effect as well.
* A Go `map[string]T` is an association list with the map operations below.
-/

set_option autoImplicit false

namespace Gitpoll

/-! ## Go runtime pieces -/

/-- A Go `error`: `none` is `nil`. -/
abbrev GoError := Option String

/-- Result of running Go code that may panic. -/
inductive Panics (α : Type) where
  | returns (a : α)
  | panics (msg : String)
deriving DecidableEq, Repr

/-- The run-time message of an out-of-range slice index. -/
def indexOutOfRange : String := "runtime error: index out of range"

/-- The run-time message of a nil dereference or a call on a nil interface. -/
def nilDereference : String := "runtime error: invalid memory address or nil pointer dereference"

/-- Go `strings.Split(s, sep)` for a one-character separator, on the characters of `s`:
the pieces between the separators; a text without separator is one piece. -/
def splitChars (sep : Char) : List Char → List (List Char)
  | [] => [[]]
  | c :: cs =>
    if c = sep then [] :: splitChars sep cs
    else
      match splitChars sep cs with
      | [] => [[c]]
      | p :: ps => (c :: p) :: ps

/-- Go `strings.Split(s, sep)` for a one-character separator. -/
def Split (s : String) (sep : Char) : List String :=
  (splitChars sep s.data).map String.mk

/-- Go slice indexing `parts[i]`, which panics beyond the length. -/
def index (parts : List String) (i : Nat) : Panics String :=
  match parts[i]? with
  | some p => .returns p
  | none => .panics indexOutOfRange

/-- A Go `map[string]T`. -/
abbrev GoMap (α : Type) := List (String × α)

namespace GoMap

variable {α : Type}

/-- The lookup `v, ok := m[k]`. -/
def get (m : GoMap α) (k : String) : Option α :=
  m.lookup k

/-- The builtin `delete(m, k)`. -/
def delete (m : GoMap α) (k : String) : GoMap α :=
  m.filter (fun p => p.1 ≠ k)

/-- The assignment `m[k] = v`. -/
def set (m : GoMap α) (k : String) (v : α) : GoMap α :=
  (k, v) :: m.delete k

/-- The keys of the map, each once. -/
def keys (m : GoMap α) : List String :=
  (m.map Prod.fst).dedup

end GoMap

/-! ## pkg/watcher/repository -/

namespace repository

structure CommitUser where
  Name : String
  Email : String
deriving DecidableEq, Repr

structure CommitDetails where
  Commit : String
  Message : String
  Author : CommitUser
  Committer : CommitUser
deriving DecidableEq, Repr

/-- The state of a `repositoryWatcher`; `L` is the type of its listener, and
`listener = none` is the nil interface. The `git` and `runner` collaborators
are the environment `GitEnv` of a tick. -/
structure repositoryWatcher (L : Type) where
  listener : Option L
  uri : String
  ref : String
  commit : String
  repoDir : String
  stop : Bool
deriving DecidableEq, Repr

/-- What the collaborators answer during one tick, when they are asked:
`ioutil.TempDir`, `git.Clone`, `git.Checkout`, the runner on `git pull`, and the
runner on `git log` (an error, or the text it wrote to standard output). -/
structure GitEnv where
  tempDir : Except String String
  clone : GoError
  checkout : GoError
  pull : GoError
  log : Except String String

/-- The calls a tick makes, in order. -/
inductive Effect (L : Type) where
  | TempDir
  | Clone (uri dir : String)
  | Checkout (dir ref : String)
  | Pull (dir : String)
  | Log (dir : String)
  | CommitAvailable (listener : L) (info : CommitDetails)
deriving DecidableEq, Repr

/-- The outcome of a tick: the watcher afterwards, the calls made, and the
panic that ended the tick, if one did. A call of the listener is recorded among
the calls; what the listener does inside it is not part of the tick's outcome. -/
structure Run (L : Type) where
  w : repositoryWatcher L
  effects : List (Effect L)
  fault : Option String
deriving DecidableEq, Repr

variable {L : Type}

/-- The source's `getCommitDetails`: runs `git log --pretty=%H|%an|%ae|%cn|%ce|%s -n1`
and returns `(nil, err)` when the command fails, else the record made of the
first six pieces of its output split on `|`. -/
def getCommitDetails (env : GitEnv) : Panics (Option CommitDetails × GoError) :=
  match env.log with
  | .error e => .returns (none, some e)
  | .ok buffer =>
    let parts := Split buffer '|'
    match index parts 0 with
    | .panics m => .panics m
    | .returns commit =>
    match index parts 1 with
    | .panics m => .panics m
    | .returns an =>
    match index parts 2 with
    | .panics m => .panics m
    | .returns ae =>
    match index parts 3 with
    | .panics m => .panics m
    | .returns cn =>
    match index parts 4 with
    | .panics m => .panics m
    | .returns ce =>
    match index parts 5 with
    | .panics m => .panics m
    | .returns msg =>
      .returns (some
        { Commit := commit, Message := msg,
          Author := { Name := an, Email := ae },
          Committer := { Name := cn, Email := ce } }, none)

/-- The source's `initializeRepo`. The checkout is made only for a non-empty ref. -/
def initializeRepo (w : repositoryWatcher L) (env : GitEnv) : Run L :=
  match env.tempDir with
  | .error _ => { w := w, effects := [.TempDir], fault := none }
  | .ok repoDir =>
    let w1 := { w with repoDir := repoDir }
    let e1 : List (Effect L) := [.TempDir, .Clone w.uri repoDir]
    match env.clone with
    | some _ => { w := w1, effects := e1, fault := none }
    | none =>
      let e2 : List (Effect L) := if w.ref ≠ "" then e1 ++ [.Checkout repoDir w.ref] else e1
      let checkoutErr : GoError := if w.ref ≠ "" then env.checkout else none
      match checkoutErr with
      | some _ => { w := w1, effects := e2, fault := none }
      | none =>
        let e3 := e2 ++ [.Log repoDir]
        match getCommitDetails env with
        | .panics m => { w := w1, effects := e3, fault := some m }
        | .returns (_, some _) => { w := w1, effects := e3, fault := none }
        | .returns (none, none) => { w := w1, effects := e3, fault := some nilDereference }
        | .returns (some commitDetails, none) =>
          let w2 := { w1 with commit := commitDetails.Commit }
          match w.listener with
          | some l => { w := w2, effects := e3 ++ [.CommitAvailable l commitDetails], fault := none }
          | none => { w := w2, effects := e3, fault := none }

/-- The source's `checkRepoUpdate`. A failed commit read is logged and the
function goes on to read `commitDetails.Commit`. -/
def checkRepoUpdate (w : repositoryWatcher L) (env : GitEnv) : Run L :=
  let e1 : List (Effect L) := [.Pull w.repoDir]
  match env.pull with
  | some _ => { w := w, effects := e1, fault := none }
  | none =>
    let e2 := e1 ++ [.Log w.repoDir]
    match getCommitDetails env with
    | .panics m => { w := w, effects := e2, fault := some m }
    | .returns (none, _) => { w := w, effects := e2, fault := some nilDereference }
    | .returns (some commitDetails, _) =>
      if commitDetails.Commit ≠ w.commit then
        let w1 := { w with commit := commitDetails.Commit }
        match w.listener with
        | some l => { w := w1, effects := e2 ++ [.CommitAvailable l commitDetails], fault := none }
        | none => { w := w1, effects := e2, fault := some nilDereference }
      else { w := w, effects := e2, fault := none }

/-- The source's `watch`: one tick. -/
def watch (w : repositoryWatcher L) (env : GitEnv) : Run L :=
  if w.commit = "" then initializeRepo w env
  else checkRepoUpdate w env

/-- The source's `Stop`. -/
def Stop (w : repositoryWatcher L) : repositoryWatcher L :=
  { w with stop := true }

/-- The watcher `WatchRepository` builds and returns. -/
def WatchRepository (repositoryURI ref : String) (listener : Option L) : repositoryWatcher L :=
  { listener := listener, uri := repositoryURI, ref := ref, commit := "", repoDir := "", stop := false }

/-- What happens to a watcher while its goroutine waits on the timer: the timer
fires (with the answers the collaborators give during that tick), or `Stop` is
called from outside. -/
inductive LoopEvent where
  | tick (env : GitEnv)
  | stopCalled

/-- The goroutine of `WatchRepository`: whether it is still in its loop, the
watcher, the calls made so far, and the panic that ended it, if one did. -/
structure Loop (L : Type) where
  running : Bool
  w : repositoryWatcher L
  effects : List (Effect L)
  fault : Option String
deriving DecidableEq, Repr

/-- The goroutine right after `WatchRepository` returns. -/
def Loop.start (w : repositoryWatcher L) : Loop L :=
  { running := true, w := w, effects := [], fault := none }

/-- One event of the loop `for _ = range t { w.watch(); if w.stop { break } }`. -/
def Loop.step (s : Loop L) : LoopEvent → Loop L
  | .stopCalled => { s with w := Stop s.w }
  | .tick env =>
    if s.running then
      let r := watch s.w env
      { running := r.fault.isNone && !r.w.stop,
        w := r.w,
        effects := s.effects ++ r.effects,
        fault := r.fault }
    else s

/-- The loop over a sequence of events. -/
def Loop.run (s : Loop L) (evs : List LoopEvent) : Loop L :=
  evs.foldl Loop.step s

/-- The `CommitAvailable` calls among the effects, in order. -/
def commitAvailableCalls : List (Effect L) → List (L × CommitDetails)
  | [] => []
  | .CommitAvailable l info :: es => (l, info) :: commitAvailableCalls es
  | _ :: es => commitAvailableCalls es

end repository

/-! ## The build-config API types -/

namespace api

/-- Modelled from the spec: the package `origin/pkg/build/api` is not among the
sources. A configuration item has an identity, a repository URI, an optional
ref and a secret; the field paths are the ones the source reads
(`bc.ID`, `bc.Secret`, `bc.Parameters.Source.Git.URI`, `bc.Parameters.Source.Git.Ref`). -/
structure GitBuildSource where
  URI : String
  Ref : String
deriving DecidableEq, Repr

structure BuildSource where
  Git : GitBuildSource
deriving DecidableEq, Repr

structure BuildParameters where
  Source : BuildSource
deriving DecidableEq, Repr

structure BuildConfig where
  ID : String
  Secret : String
  Parameters : BuildParameters
deriving DecidableEq, Repr

structure SourceControlUser where
  Name : String
  Email : String
deriving DecidableEq, Repr

end api

/-! ## pkg/watcher/buildcfg -/

namespace buildcfg

/-- Modelled from the spec: the type `util.StringSet` is not among the sources.
A set of identities, held as a list without repetition. -/
abbrev StringSet := List String

/-- The test `ids.Has(id)`. -/
def StringSet.Has (ids : StringSet) (id : String) : Bool :=
  decide (id ∈ ids)

/-- The removal `ids.Delete(id)`. -/
def StringSet.Delete (ids : StringSet) (id : String) : StringSet :=
  ids.filter (fun x => x ≠ id)

/-- The listing `ids.List()`, in increasing order. -/
def StringSet.List (ids : StringSet) : List String :=
  ids.insertionSort (fun a b => a ≤ b)

/-- Modelled from the spec: the type `cache.Store` is not among the sources.
An identity-keyed mapping that remembers the items seen on the previous poll. -/
abbrev Store := GoMap api.BuildConfig

namespace Store

/-- The set of identities `store.Contains()`. -/
def Contains (s : Store) : StringSet :=
  GoMap.keys s

/-- The write `store.Update(id, obj)`. -/
def Update (s : Store) (id : String) (obj : api.BuildConfig) : Store :=
  GoMap.set s id obj

/-- The removal `store.Delete(id)`. -/
def Delete (s : Store) (id : String) : Store :=
  GoMap.delete s id

end Store

/-- The calls made on the `Listener`, in order. -/
inductive Event where
  | BuildConfigAdded (bc : api.BuildConfig)
  | BuildConfigDeleted (name : String)
deriving DecidableEq, Repr

/-- The state of a `buildConfigWatcher` that `sync` reads and writes. -/
structure buildConfigWatcher where
  store : Store
  stop : Bool
deriving DecidableEq, Repr

/-- The first loop of `sync`, over the fetched items: an item whose identity is
in `ids` is taken out of `ids`, any other is stored and announced. -/
def syncItems : List api.BuildConfig → StringSet × Store × List Event →
    StringSet × Store × List Event
  | [], st => st
  | buildConfig :: rest, (ids, store, events) =>
    if StringSet.Has ids buildConfig.ID then
      syncItems rest (StringSet.Delete ids buildConfig.ID, store, events)
    else
      syncItems rest
        (ids, Store.Update store buildConfig.ID buildConfig,
          events ++ [.BuildConfigAdded buildConfig])

/-- The second loop of `sync`, over what is left of `ids`. -/
def syncDeleted : List String → Store × List Event → Store × List Event
  | [], st => st
  | id :: rest, (store, events) =>
    syncDeleted rest (Store.Delete store id, events ++ [.BuildConfigDeleted id])

/-- The source's `sync`; `fetched` is what `ListBuildConfigs` answers. Returns
the watcher afterwards, the listener calls made, and the error returned. -/
def sync (w : buildConfigWatcher) (fetched : Except String (List api.BuildConfig)) :
    buildConfigWatcher × List Event × GoError :=
  match fetched with
  | .error e => (w, [], some e)
  | .ok items =>
    let ids := Store.Contains w.store
    let (ids1, store1, events1) := syncItems items (ids, w.store, [])
    let (store2, events2) := syncDeleted (StringSet.List ids1) (store1, events1)
    ({ w with store := store2 }, events2, none)

/-- The identities of the `BuildConfigAdded` calls, in order. -/
def addedIDs : List Event → List String
  | [] => []
  | .BuildConfigAdded bc :: es => bc.ID :: addedIDs es
  | _ :: es => addedIDs es

/-- The identities of the `BuildConfigDeleted` calls, in order. -/
def deletedIDs : List Event → List String
  | [] => []
  | .BuildConfigDeleted id :: es => id :: deletedIDs es
  | _ :: es => deletedIDs es

end buildcfg

/-! ## pkg/hook -/

namespace hook

/-- The source's `buildLauncher`; `buildConfig` is the build config its pointer
refers to when the launcher is used. -/
structure buildLauncher where
  endpoint : String
  buildConfig : api.BuildConfig
deriving DecidableEq, Repr

structure gitHubCommit where
  ID : String
  Author : api.SourceControlUser
  Committer : api.SourceControlUser
  Message : String
deriving DecidableEq, Repr

structure gitHubPushEvent where
  Ref : String
  After : String
  HeadCommit : gitHubCommit
deriving DecidableEq, Repr

/-- The source's `ref`. -/
def ref (bc : api.BuildConfig) : String :=
  let refTag := if bc.Parameters.Source.Git.Ref ≠ "" then bc.Parameters.Source.Git.Ref else "master"
  "refs/heads/" ++ refTag

/-- The source's `webhookURL`. -/
def webhookURL (endpoint : String) (bc : api.BuildConfig) : String :=
  endpoint ++ "/osapi/v1beta1/buildConfigHooks/" ++ bc.ID ++ "/" ++ bc.Secret ++ "/github"

/-- The request `buildLauncher.CommitAvailable` posts; its body is the push
event before it is marshalled. -/
structure Request where
  method : String
  url : String
  headers : List (String × String)
  body : gitHubPushEvent
deriving DecidableEq, Repr

/-- The source's `buildLauncher.CommitAvailable`, up to the request it sends. -/
def buildLauncher.CommitAvailable (b : buildLauncher) (info : repository.CommitDetails) : Request :=
  let e : gitHubPushEvent :=
    { Ref := ref b.buildConfig,
      After := info.Commit,
      HeadCommit :=
        { ID := info.Commit,
          Author := { Name := info.Author.Name, Email := info.Author.Email },
          Committer := { Name := info.Committer.Name, Email := info.Committer.Email },
          Message := info.Message } }
  { method := "POST",
    url := webhookURL b.endpoint b.buildConfig,
    headers :=
      [("User-Agent", "GitHub-Hookshot/github"),
       ("Content-Type", "application/json"),
       ("X-Github-Event", "push")],
    body := e }

/-- The state of a `configWatcher`: its endpoint and its registry `watchers`,
which maps an identity to a watcher, named by its place among the repository
watchers started so far. -/
structure configWatcher where
  endpoint : String
  watchers : GoMap Nat
deriving DecidableEq, Repr

/-- The `configWatcher` together with the repository watchers started so far. -/
structure State where
  w : configWatcher
  started : List (repository.repositoryWatcher buildLauncher)
deriving DecidableEq, Repr

/-- The `configWatcher` that `Start` builds, with an empty registry and no
repository watcher started. -/
def Start (endpoint : String) : State :=
  { w := { endpoint := endpoint, watchers := [] }, started := [] }

/-- The source's `configWatcher.BuildConfigAdded`: the repository watcher is
started with the build config's URI and the ref `""`. -/
def BuildConfigAdded (s : State) (bc : api.BuildConfig) : State :=
  let launcher : buildLauncher := { buildConfig := bc, endpoint := s.w.endpoint }
  let watcher := repository.WatchRepository bc.Parameters.Source.Git.URI "" (some launcher)
  { w := { s.w with watchers := GoMap.set s.w.watchers bc.ID s.started.length },
    started := s.started ++ [watcher] }

/-- The call `watcher.Stop()` on the watcher at place `h`. -/
def stopAt (started : List (repository.repositoryWatcher buildLauncher)) (h : Nat) :
    List (repository.repositoryWatcher buildLauncher) :=
  match started[h]? with
  | some w => started.set h (repository.Stop w)
  | none => started

/-- The source's `configWatcher.BuildConfigDeleted`: the state afterwards and
the watchers on which `Stop` was called. -/
def BuildConfigDeleted (s : State) (id : String) : State × List Nat :=
  match GoMap.get s.w.watchers id with
  | some watcher =>
    ({ w := { s.w with watchers := GoMap.delete s.w.watchers id },
       started := stopAt s.started watcher }, [watcher])
  | none => (s, [])

end hook

end Gitpoll

/-! ## Inputs used by the closed statements below -/

namespace Gitpoll

open repository

/-- The text `git log --pretty=%H|%an|%ae|%cn|%ce|%s -n1` prints: the record,
and the line end git writes after it. -/
def prettyFormat (H an ae cn ce s : String) : String :=
  H ++ "|" ++ an ++ "|" ++ ae ++ "|" ++ cn ++ "|" ++ ce ++ "|" ++ s ++ "\n"

/-- A tick in which every collaborator succeeds and `git log` prints `out`. -/
def tickPrinting (out : String) : GitEnv :=
  { tempDir := .ok "/tmp/watchrepo1", clone := none, checkout := none, pull := none, log := .ok out }

/-- A tick in which every collaborator succeeds but `git log`, which fails. -/
def tickLogFails : GitEnv :=
  { tempDir := .ok "/tmp/watchrepo1", clone := none, checkout := none, pull := none,
    log := .error "exit status 128" }

/-- A build config on the branch `dev`. -/
def devConfig : api.BuildConfig :=
  { ID := "a", Secret := "s", Parameters := { Source := { Git := { URI := "repo-a", Ref := "dev" } } } }

/-- A watcher fresh from `WatchRepository`, in the Uninitialized state. -/
def freshWatcher : repositoryWatcher hook.buildLauncher :=
  WatchRepository "repo-a" "" (some { endpoint := "http://localhost:8080", buildConfig := devConfig })

/-- A watcher in the Tracking state, with last-known commit `c1`. -/
def trackingWatcher : repositoryWatcher hook.buildLauncher :=
  { freshWatcher with commit := "c1", repoDir := "/tmp/watchrepo1" }

/-- A watcher fresh from `WatchRepository` with the nil listener. -/
def silentWatcher : repositoryWatcher hook.buildLauncher :=
  WatchRepository "repo-a" "" none

/-- The listener of `freshWatcher` and `trackingWatcher`. -/
def devLauncher : hook.buildLauncher :=
  { endpoint := "http://localhost:8080", buildConfig := devConfig }

/-- The record of a commit `c2` by `n <e>` with subject `m`. -/
def commitC2 : CommitDetails :=
  { Commit := "c2", Message := "m", Author := { Name := "n", Email := "e" },
    Committer := { Name := "n", Email := "e" } }

/-- The state of the hook after `Start` and one `BuildConfigAdded(devConfig)`. -/
def oneWatcher : hook.State :=
  hook.BuildConfigAdded (hook.Start "http://localhost:8080") devConfig

/-- A build config `b` on the default branch. -/
def otherConfig : api.BuildConfig :=
  { ID := "b", Secret := "t", Parameters := { Source := { Git := { URI := "repo-b", Ref := "" } } } }

/-- The part of a text before its first `|`: all of it when it has none. -/
def beforeSeparator (s : String) : String :=
  String.mk (s.data.takeWhile (fun c => c ≠ '|'))

end Gitpoll

/-! ## Theorems -/

namespace Gitpoll

open repository

variable {L : Type}

/-! ### Splitting -/

theorem splitChars_ne_nil (sep : Char) (l : List Char) : splitChars sep l ≠ [] := by
  cases l with
  | nil => simp [splitChars]
  | cons c cs =>
    unfold splitChars
    split
    · simp
    · split <;> simp

theorem splitChars_of_not_mem (sep : Char) (l : List Char) (h : sep ∉ l) :
    splitChars sep l = [l] := by
  induction l with
  | nil => rfl
  | cons c cs ih =>
    have hc : c ≠ sep := fun e => h (by simp [e])
    have hcs : sep ∉ cs := fun e => h (by simp [e])
    simp [splitChars, hc, ih hcs]

theorem splitChars_append_sep (sep : Char) (a b : List Char) (h : sep ∉ a) :
    splitChars sep (a ++ sep :: b) = a :: splitChars sep b := by
  induction a with
  | nil => simp [splitChars]
  | cons c cs ih =>
    have hc : c ≠ sep := fun e => h (by simp [e])
    have hcs : sep ∉ cs := fun e => h (by simp [e])
    simp [splitChars, hc, ih hcs]

theorem splitChars_head (sep : Char) (l : List Char) :
    ∃ ps, splitChars sep l = l.takeWhile (fun c => c ≠ sep) :: ps := by
  induction l with
  | nil => exact ⟨[], rfl⟩
  | cons c cs ih =>
    obtain ⟨ps, hps⟩ := ih
    by_cases hc : c = sep
    · exact ⟨splitChars sep cs, by simp [splitChars, hc]⟩
    · exact ⟨ps, by simp [splitChars, hc, hps]⟩

theorem prettyFormat_data (H an ae cn ce s : String) :
    (prettyFormat H an ae cn ce s).data =
      H.data ++ '|' :: (an.data ++ '|' :: (ae.data ++ '|' :: (cn.data ++ '|' ::
        (ce.data ++ '|' :: (s ++ "\n").data)))) := by
  simp [prettyFormat, String.data_append]

theorem Split_prettyFormat (H an ae cn ce s : String)
    (hH : '|' ∉ H.data) (han : '|' ∉ an.data) (hae : '|' ∉ ae.data)
    (hcn : '|' ∉ cn.data) (hce : '|' ∉ ce.data) :
    ∃ ps, Split (prettyFormat H an ae cn ce s) '|' =
      H :: an :: ae :: cn :: ce :: beforeSeparator (s ++ "\n") :: ps := by
  obtain ⟨ps, hps⟩ := splitChars_head '|' (s ++ "\n").data
  refine ⟨ps.map String.mk, ?_⟩
  rw [Split, prettyFormat_data]
  simp only [splitChars_append_sep, hH, han, hae, hcn, hce, hps, not_false_eq_true,
    List.map_cons, beforeSeparator]

theorem takeWhile_append_of_mem (sep : Char) (l t : List Char) (h : sep ∈ l) :
    (l ++ t).takeWhile (fun c => c ≠ sep) = l.takeWhile (fun c => c ≠ sep) := by
  induction l with
  | nil => cases h
  | cons c cs ih =>
    by_cases hc : c = sep
    · simp [List.takeWhile_cons, hc]
    · have hmem : sep ∈ cs := by
        rcases List.mem_cons.mp h with e | e
        · exact absurd e.symm hc
        · exact e
      have ih2 := ih hmem
      simp only [List.cons_append, List.takeWhile_cons, ne_eq, hc, not_false_eq_true,
        decide_True, if_true, ih2]

theorem beforeSeparator_line (s : String) :
    beforeSeparator (s ++ "\n") = if '|' ∈ s.data then beforeSeparator s else s ++ "\n" := by
  by_cases h : '|' ∈ s.data
  · rw [if_pos h]
    show String.mk ((s ++ "\n").data.takeWhile (fun c => c ≠ '|')) =
      String.mk (s.data.takeWhile (fun c => c ≠ '|'))
    rw [String.data_append, takeWhile_append_of_mem '|' s.data _ h]
  · rw [if_neg h]
    have hall : (s ++ "\n").data.takeWhile (fun c => c ≠ '|') = (s ++ "\n").data := by
      rw [List.takeWhile_eq_self_iff]
      intro c hc
      rw [String.data_append, List.mem_append] at hc
      have : c ≠ '|' := by
        rcases hc with hc | hc
        · exact fun e => h (e ▸ hc)
        · have : c = '\n' := by simpa using hc
          rw [this]; decide
      simpa using this
    show String.mk ((s ++ "\n").data.takeWhile (fun c => c ≠ '|')) = s ++ "\n"
    rw [hall]

theorem beforeSeparator_of_not_mem (s : String) (h : '|' ∉ s.data) : beforeSeparator s = s := by
  have : s.data.takeWhile (fun c => c ≠ '|') = s.data := by
    rw [List.takeWhile_eq_self_iff]
    intro c hc
    have : c ≠ '|' := fun e => h (e ▸ hc)
    simpa using this
  show String.mk (s.data.takeWhile (fun c => c ≠ '|')) = s
  rw [this]

/-! ### The commit read -/

theorem getCommitDetails_of_six (env : GitEnv) (out p0 p1 p2 p3 p4 p5 : String) (ps : List String)
    (hlog : env.log = .ok out) (hparts : Split out '|' = p0 :: p1 :: p2 :: p3 :: p4 :: p5 :: ps) :
    getCommitDetails env = .returns (some
      { Commit := p0, Message := p5, Author := { Name := p1, Email := p2 },
        Committer := { Name := p3, Email := p4 } }, none) := by
  simp [getCommitDetails, hlog, hparts, index]

theorem getCommitDetails_of_short (env : GitEnv) (out : String)
    (hlog : env.log = .ok out) (hlen : (Split out '|').length < 6) :
    getCommitDetails env = .panics indexOutOfRange := by
  rcases hparts : Split out '|' with _ | ⟨p0, _ | ⟨p1, _ | ⟨p2, _ | ⟨p3, _ | ⟨p4, _ | ⟨p5, ps⟩⟩⟩⟩⟩⟩
  all_goals first
    | (exfalso; rw [hparts] at hlen; simp only [List.length_cons] at hlen; omega)
    | simp [getCommitDetails, hlog, hparts, index]

theorem getCommitDetails_of_error (env : GitEnv) (e : String) (hlog : env.log = .error e) :
    getCommitDetails env = .returns (none, some e) := by
  simp [getCommitDetails, hlog]

theorem checkRepoUpdate_of_log_error (w : repositoryWatcher L) (env : GitEnv) (e : String)
    (hpull : env.pull = none) (hlog : env.log = .error e) :
    checkRepoUpdate w env =
      { w := w, effects := [.Pull w.repoDir, .Log w.repoDir], fault := some nilDereference } := by
  simp [checkRepoUpdate, hpull, getCommitDetails_of_error env e hlog]

theorem checkRepoUpdate_of_short (w : repositoryWatcher L) (env : GitEnv) (out : String)
    (hpull : env.pull = none) (hlog : env.log = .ok out) (hlen : (Split out '|').length < 6) :
    checkRepoUpdate w env =
      { w := w, effects := [.Pull w.repoDir, .Log w.repoDir], fault := some indexOutOfRange } := by
  simp [checkRepoUpdate, hpull, getCommitDetails_of_short env out hlog hlen]

/-- C9 (amended): when `git log` succeeds and prints the record formatted as
`%H|%an|%ae|%cn|%ce|%s`, with the line end git writes after it, for values of
which the hash, the two names and the two emails hold no `|`,
`getCommitDetails` returns the record with `Commit = H`, `Author = (an, ae)`,
`Committer = (cn, ce)` and `Message` the part of the subject before its first
`|` when the subject holds one, and the subject followed by the line end
otherwise. -/
theorem getCommitDetails_prettyFormat (env : GitEnv) (H an ae cn ce s : String)
    (hH : '|' ∉ H.data) (han : '|' ∉ an.data) (hae : '|' ∉ ae.data)
    (hcn : '|' ∉ cn.data) (hce : '|' ∉ ce.data)
    (hlog : env.log = .ok (prettyFormat H an ae cn ce s)) :
    getCommitDetails env = .returns (some
      { Commit := H,
        Message := if '|' ∈ s.data then beforeSeparator s else s ++ "\n",
        Author := { Name := an, Email := ae },
        Committer := { Name := cn, Email := ce } }, none) := by
  obtain ⟨ps, hps⟩ := Split_prettyFormat H an ae cn ce s hH han hae hcn hce
  rw [getCommitDetails_of_six env _ _ _ _ _ _ _ ps hlog hps, beforeSeparator_line]

/-- Witness of the amended C9: the printed record of the commit `c2` by `n <e>`
with the subject `m`, whose message comes back as `m` and the line end. -/
theorem getCommitDetails_prettyFormat_witness :
    (tickPrinting (prettyFormat "c2" "n" "e" "n" "e" "m")).log = .ok "c2|n|e|n|e|m\n" ∧
    getCommitDetails (tickPrinting (prettyFormat "c2" "n" "e" "n" "e" "m")) =
      .returns (some
        { Commit := "c2",
          Message := if '|' ∈ "m".data then beforeSeparator "m" else "m" ++ "\n",
          Author := { Name := "n", Email := "e" },
          Committer := { Name := "n", Email := "e" } }, none) :=
  ⟨rfl, getCommitDetails_prettyFormat (tickPrinting (prettyFormat "c2" "n" "e" "n" "e" "m"))
    "c2" "n" "e" "n" "e" "m"
    (by decide) (by decide) (by decide) (by decide) (by decide) rfl⟩

/-- C9 as stated fails. For the subject `fix a|b` the read succeeds and the
message returned is `fix a`, not the subject. For the subject `m` the message
returned is `m` followed by the line end, not `m`. For the author name `a|b`
the author returned is `(a, b)` and the message is the committer email. -/
theorem getCommitDetails_not_verbatim :
    (getCommitDetails (tickPrinting (prettyFormat "c2" "n" "e" "n" "e" "fix a|b")) =
        .returns (some
          { Commit := "c2", Message := "fix a", Author := { Name := "n", Email := "e" },
            Committer := { Name := "n", Email := "e" } }, none) ∧
      getCommitDetails (tickPrinting (prettyFormat "c2" "n" "e" "n" "e" "fix a|b")) ≠
        .returns (some
          { Commit := "c2", Message := "fix a|b", Author := { Name := "n", Email := "e" },
            Committer := { Name := "n", Email := "e" } }, none)) ∧
    (getCommitDetails (tickPrinting (prettyFormat "c2" "n" "e" "n" "e" "m")) =
        .returns (some
          { Commit := "c2", Message := "m\n", Author := { Name := "n", Email := "e" },
            Committer := { Name := "n", Email := "e" } }, none) ∧
      getCommitDetails (tickPrinting (prettyFormat "c2" "n" "e" "n" "e" "m")) ≠
        .returns (some
          { Commit := "c2", Message := "m", Author := { Name := "n", Email := "e" },
            Committer := { Name := "n", Email := "e" } }, none)) ∧
    (getCommitDetails (tickPrinting (prettyFormat "c2" "a|b" "e" "n" "f" "m")) =
        .returns (some
          { Commit := "c2", Message := "f", Author := { Name := "a", Email := "b" },
            Committer := { Name := "e", Email := "n" } }, none) ∧
      getCommitDetails (tickPrinting (prettyFormat "c2" "a|b" "e" "n" "f" "m")) ≠
        .returns (some
          { Commit := "c2", Message := "m", Author := { Name := "a|b", Email := "e" },
            Committer := { Name := "n", Email := "f" } }, none)) := by
  decide

/-! ### One tick of the repository watcher -/

theorem watch_of_tracking (w : repositoryWatcher L) (env : GitEnv) (hT : w.commit ≠ "") :
    watch w env = checkRepoUpdate w env := by
  simp [watch, hT]

theorem watch_of_uninitialized (w : repositoryWatcher L) (env : GitEnv) (hU : w.commit = "") :
    watch w env = initializeRepo w env := by
  simp [watch, hU]

/-- For a watcher in the Tracking state, a tick whose pull succeeds and whose
commit read returns the record `d` makes no `CommitAvailable` call and keeps the
last-known hash when `d.Commit` is that hash; when it differs and the watcher
has a listener, the tick calls `CommitAvailable` of that listener exactly once,
with `d`, and the last-known hash becomes `d.Commit`. -/
theorem watch_tracking_read (w : repositoryWatcher L) (env : GitEnv) (d : CommitDetails)
    (hT : w.commit ≠ "") (hpull : env.pull = none)
    (hread : getCommitDetails env = .returns (some d, none)) :
    (d.Commit = w.commit →
      (watch w env).fault = none ∧
      commitAvailableCalls (watch w env).effects = [] ∧
      (watch w env).w.commit = w.commit) ∧
    (d.Commit ≠ w.commit → ∀ l, w.listener = some l →
      (watch w env).fault = none ∧
      commitAvailableCalls (watch w env).effects = [(l, d)] ∧
      (watch w env).w.commit = d.Commit) := by
  rw [watch_of_tracking w env hT]
  constructor
  · intro h
    simp [checkRepoUpdate, hpull, hread, h, commitAvailableCalls]
  · intro h l hl
    simp [checkRepoUpdate, hpull, hread, h, hl, commitAvailableCalls]

theorem checkRepoUpdate_of_nil_listener (w : repositoryWatcher L) (env : GitEnv)
    (d : CommitDetails) (hl : w.listener = none) (hpull : env.pull = none)
    (hread : getCommitDetails env = .returns (some d, none)) (hd : d.Commit ≠ w.commit) :
    checkRepoUpdate w env =
      { w := { w with commit := d.Commit }, effects := [.Pull w.repoDir, .Log w.repoDir],
        fault := some nilDereference } := by
  simp [checkRepoUpdate, hpull, hread, hd, hl]

/-- C2: a watcher started with the nil listener reads `c1` on its first tick and
is in the Tracking state with last-known hash `c1`, no call made, since
`initializeRepo` tests the listener for nil. On the next tick the pull succeeds
and the commit read returns the hash `c2`: `checkRepoUpdate` sets the
last-known hash to `c2` and panics on the call of the nil listener, with no
`CommitAvailable` call made. -/
theorem changed_hash_nil_listener_panics :
    (watch silentWatcher (tickPrinting (prettyFormat "c1" "n" "e" "n" "e" "m"))).fault = none ∧
    (watch silentWatcher (tickPrinting (prettyFormat "c1" "n" "e" "n" "e" "m"))).w =
      { listener := none, uri := "repo-a", ref := "", commit := "c1",
        repoDir := "/tmp/watchrepo1", stop := false } ∧
    getCommitDetails (tickPrinting (prettyFormat "c2" "n" "e" "n" "e" "m")) =
      .returns (some
        { Commit := "c2", Message := "m\n", Author := { Name := "n", Email := "e" },
          Committer := { Name := "n", Email := "e" } }, none) ∧
    (watch (watch silentWatcher (tickPrinting (prettyFormat "c1" "n" "e" "n" "e" "m"))).w
      (tickPrinting (prettyFormat "c2" "n" "e" "n" "e" "m"))).fault = some nilDereference ∧
    commitAvailableCalls
      (watch (watch silentWatcher (tickPrinting (prettyFormat "c1" "n" "e" "n" "e" "m"))).w
        (tickPrinting (prettyFormat "c2" "n" "e" "n" "e" "m"))).effects = [] ∧
    (watch (watch silentWatcher (tickPrinting (prettyFormat "c1" "n" "e" "n" "e" "m"))).w
      (tickPrinting (prettyFormat "c2" "n" "e" "n" "e" "m"))).w.commit = "c2" := by
  decide

/-- C3: for a watcher in the Uninitialized state that has a listener, a tick in
which the working directory is made, the clone and the checkout succeed and the
commit read returns the record `d`, whatever `d` holds, calls `CommitAvailable`
of the listener exactly once, with `d`, and records `d.Commit` as the
last-known commit. -/
theorem watch_uninitialized_read (w : repositoryWatcher L) (env : GitEnv) (l : L)
    (dir : String) (d : CommitDetails)
    (hU : w.commit = "") (hl : w.listener = some l)
    (htmp : env.tempDir = .ok dir) (hclone : env.clone = none) (hcheckout : env.checkout = none)
    (hread : getCommitDetails env = .returns (some d, none)) :
    (watch w env).fault = none ∧
    commitAvailableCalls (watch w env).effects = [(l, d)] ∧
    (watch w env).w.commit = d.Commit := by
  rw [watch_of_uninitialized w env hU]
  by_cases href : w.ref = ""
  · simp [initializeRepo, htmp, hclone, hread, hl, href, commitAvailableCalls]
  · simp [initializeRepo, htmp, hclone, hcheckout, hread, hl, href, commitAvailableCalls]

/-- Witness of C3: the fresh watcher reads `c2`. -/
theorem watch_uninitialized_read_witness :
    freshWatcher.commit = "" ∧
    (watch freshWatcher (tickPrinting "c2|n|e|n|e|m")).fault = none ∧
    commitAvailableCalls (watch freshWatcher (tickPrinting "c2|n|e|n|e|m")).effects =
      [(devLauncher, commitC2)] ∧
    (watch freshWatcher (tickPrinting "c2|n|e|n|e|m")).w.commit = commitC2.Commit :=
  ⟨rfl, watch_uninitialized_read freshWatcher (tickPrinting "c2|n|e|n|e|m") devLauncher
    "/tmp/watchrepo1" commitC2 rfl rfl rfl rfl rfl (by decide)⟩

/-- C5: on a `git log` output of fewer than six fields the code does not report
a read failure. The empty output splits into one field; `getCommitDetails`
panics on `parts[1]`, and so does the tick, from the Tracking state and from
the Uninitialized state alike. No `CommitAvailable` call is made and the
last-known commit is as before. -/
theorem malformed_output_panics :
    (Split "" '|').length = 1 ∧
    getCommitDetails (tickPrinting "") = .panics indexOutOfRange ∧
    (watch trackingWatcher (tickPrinting "")).fault = some indexOutOfRange ∧
    (watch freshWatcher (tickPrinting "")).fault = some indexOutOfRange ∧
    commitAvailableCalls (watch trackingWatcher (tickPrinting "")).effects = [] ∧
    (watch trackingWatcher (tickPrinting "")).w.commit = trackingWatcher.commit := by
  decide

/-- C6: in the Tracking state, a tick whose pull succeeds and whose `git log`
fails does not complete: `getCommitDetails` returns `(nil, err)`, the error is
logged, and the read of `commitDetails.Commit` that follows panics. No
`CommitAvailable` call is made and the last-known commit is as before. -/
theorem failed_log_panics :
    getCommitDetails tickLogFails = .returns (none, some "exit status 128") ∧
    (watch trackingWatcher tickLogFails).fault = some nilDereference ∧
    commitAvailableCalls (watch trackingWatcher tickLogFails).effects = [] ∧
    (watch trackingWatcher tickLogFails).w.commit = trackingWatcher.commit := by
  decide

/-! ### The loop of the repository watcher -/

theorem Loop.run_cons (s : Loop L) (e : LoopEvent) (evs : List LoopEvent) :
    Loop.run s (e :: evs) = Loop.run (Loop.step s e) evs := rfl

theorem Loop.step_of_not_running (s : Loop L) (e : LoopEvent) (h : s.running = false) :
    (Loop.step s e).running = false ∧ (Loop.step s e).effects = s.effects := by
  cases e <;> simp [Loop.step, h]

theorem Loop.run_of_not_running (s : Loop L) (evs : List LoopEvent) (h : s.running = false) :
    (Loop.run s evs).effects = s.effects := by
  induction evs generalizing s with
  | nil => rfl
  | cons e evs ih =>
    rw [Loop.run_cons, ih _ (Loop.step_of_not_running s e h).1, (Loop.step_of_not_running s e h).2]

theorem initializeRepo_stop (w : repositoryWatcher L) (env : GitEnv) :
    (initializeRepo w env).w.stop = w.stop := by
  rcases h1 : env.tempDir with e | dir
  · simp [initializeRepo, h1]
  · rcases h2 : env.clone with _ | e
    · rcases h3 : getCommitDetails env with ⟨_ | d, _ | e⟩ | m <;>
        rcases h4 : w.listener with _ | l <;>
        rcases h5 : env.checkout with _ | e <;>
        by_cases href : w.ref = "" <;>
        simp [initializeRepo, h1, h2, h3, h4, h5, href]
    · simp [initializeRepo, h1, h2]

theorem checkRepoUpdate_stop (w : repositoryWatcher L) (env : GitEnv) :
    (checkRepoUpdate w env).w.stop = w.stop := by
  rcases h2 : env.pull with _ | e
  · rcases h3 : getCommitDetails env with ⟨_ | d, _ | e⟩ | m <;>
      rcases h4 : w.listener with _ | l <;>
      simp [checkRepoUpdate, h2, h3, h4] <;>
      split <;> rfl
  · simp [checkRepoUpdate, h2]

theorem watch_stop (w : repositoryWatcher L) (env : GitEnv) : (watch w env).w.stop = w.stop := by
  unfold watch
  split
  · exact initializeRepo_stop w env
  · exact checkRepoUpdate_stop w env

theorem Loop.run_after_stop (s : Loop L) (env : GitEnv) (evs : List LoopEvent)
    (hrun : s.running = true) :
    (Loop.run s (.stopCalled :: .tick env :: evs)).effects =
      s.effects ++ (watch (Stop s.w) env).effects := by
  rw [Loop.run_cons, Loop.run_cons, Loop.run_of_not_running]
  · simp [Loop.step, hrun]
  · simp [Loop.step, hrun, watch_stop, Stop]

/-- C7: `Stop` is called while a fresh watcher waits for its first tick; the
tick that follows still runs `watch`, which makes a directory, clones, reads the
log and calls `CommitAvailable`. The same holds from the Tracking state, where
the tick pulls, reads the log and calls `CommitAvailable`. -/
theorem watch_runs_after_stop :
    (Loop.run (Loop.start freshWatcher)
        [.stopCalled, .tick (tickPrinting "c2|n|e|n|e|m")]).effects =
      [.TempDir, .Clone "repo-a" "/tmp/watchrepo1", .Log "/tmp/watchrepo1",
        .CommitAvailable devLauncher commitC2] ∧
    (Loop.run (Loop.start trackingWatcher)
        [.stopCalled, .tick (tickPrinting "c2|n|e|n|e|m")]).effects =
      [.Pull "/tmp/watchrepo1", .Log "/tmp/watchrepo1",
        .CommitAvailable devLauncher commitC2] := by
  decide

/-! ### Go maps -/

theorem GoMap.get_delete {α : Type} (m : GoMap α) (id k : String) :
    GoMap.get (GoMap.delete m id) k = if k = id then none else GoMap.get m k := by
  induction m with
  | nil => simp [GoMap.get, GoMap.delete]
  | cons p m ih =>
    obtain ⟨a, v⟩ := p
    simp only [GoMap.get, GoMap.delete] at ih ⊢
    by_cases ha : a = id
    · subst ha
      by_cases hk : k = a
      · simpa [List.filter_cons, hk] using ih
      · have hb : (k == a) = false := by simpa using hk
        simpa [List.filter_cons, List.lookup_cons, hk, hb] using ih
    · by_cases hk : k = a
      · subst hk
        simp [List.filter_cons, List.lookup_cons, ha]
      · have hb : (k == a) = false := by simpa using hk
        simpa [List.filter_cons, List.lookup_cons, ha, hb] using ih

theorem GoMap.get_set {α : Type} (m : GoMap α) (id k : String) (v : α) :
    GoMap.get (GoMap.set m id v) k = if k = id then some v else GoMap.get m k := by
  by_cases hk : k = id
  · simp [GoMap.get, GoMap.set, List.lookup_cons, hk]
  · have h := GoMap.get_delete m id k
    have hb : (k == id) = false := by simpa using hk
    simp only [GoMap.get] at h
    simp [GoMap.get, GoMap.set, List.lookup_cons, hk, hb, h]

/-! ### pkg/hook -/

open hook

/-- C4: the push event built by `buildLauncher.CommitAvailable` for the build
config `bc` and the commit record `c` has `ref` equal to `refs/heads/` followed
by the git ref of `bc`, or by `master` when that ref is empty; `after` and the
`head_commit` id equal to the hash of `c`; and the author, committer and message
of `head_commit` equal to those of `c`. -/
theorem CommitAvailable_event (endpoint : String) (bc : api.BuildConfig) (c : CommitDetails) :
    ((buildLauncher.CommitAvailable { endpoint := endpoint, buildConfig := bc } c).body.Ref =
      "refs/heads/" ++
        (if bc.Parameters.Source.Git.Ref = "" then "master" else bc.Parameters.Source.Git.Ref)) ∧
    (buildLauncher.CommitAvailable { endpoint := endpoint, buildConfig := bc } c).body.After =
      c.Commit ∧
    (buildLauncher.CommitAvailable { endpoint := endpoint, buildConfig := bc } c).body.HeadCommit =
      { ID := c.Commit,
        Author := { Name := c.Author.Name, Email := c.Author.Email },
        Committer := { Name := c.Committer.Name, Email := c.Committer.Email },
        Message := c.Message } := by
  refine ⟨?_, rfl, rfl⟩
  by_cases h : bc.Parameters.Source.Git.Ref = "" <;>
    simp [buildLauncher.CommitAvailable, ref, h]

theorem BuildConfigAdded_registers (s : State) (bc : api.BuildConfig) :
    GoMap.get (BuildConfigAdded s bc).w.watchers bc.ID = some s.started.length ∧
    (BuildConfigAdded s bc).started[s.started.length]? =
      some (WatchRepository bc.Parameters.Source.Git.URI ""
        (some { endpoint := s.w.endpoint, buildConfig := bc })) := by
  constructor
  · simp [BuildConfigAdded, GoMap.get_set]
  · simp [BuildConfigAdded]

/-- C8: for a build config on the ref `dev`, `configWatcher.BuildConfigAdded`
starts the repository watcher with the URI of the build config and records it
under the identity of the build config, but the ref it gives the watcher is the
empty one, not `dev`. -/
theorem BuildConfigAdded_drops_ref :
    devConfig.Parameters.Source.Git.Ref = "dev" ∧
    (BuildConfigAdded (Start "http://localhost:8080") devConfig).started =
      [{ listener := some devLauncher, uri := "repo-a", ref := "", commit := "", repoDir := "",
         stop := false }] ∧
    GoMap.get (BuildConfigAdded (Start "http://localhost:8080") devConfig).w.watchers "a" =
      some 0 := by
  decide

theorem stopAt_getElem?_self (started : List (repositoryWatcher buildLauncher)) (h : Nat) :
    (stopAt started h)[h]? = started[h]?.map Stop := by
  unfold stopAt
  rcases hw : started[h]? with _ | w
  · simp [hw]
  · simp [List.getElem?_set, hw]
    have : h < started.length := by
      rcases Nat.lt_or_ge h started.length with hl | hl
      · exact hl
      · rw [List.getElem?_eq_none hl] at hw
        cases hw
    simp [this]

theorem stopAt_getElem?_ne (started : List (repositoryWatcher buildLauncher)) (h i : Nat)
    (hi : i ≠ h) : (stopAt started h)[i]? = started[i]? := by
  unfold stopAt
  rcases hw : started[h]? with _ | w
  · simp
  · simp [List.getElem?_set, Ne.symm hi]

/-- C10: `configWatcher.BuildConfigDeleted(id)` with no watcher registered
under `id` calls `Stop` on no watcher and leaves the registry and every watcher
as they were; with the watcher `h` registered under `id` it calls `Stop` on `h`
and on no other, takes the entry of `id` out of the registry and leaves every
other entry and every other watcher as they were. -/
theorem BuildConfigDeleted_spec (s : State) (id : String) :
    (GoMap.get s.w.watchers id = none → BuildConfigDeleted s id = (s, [])) ∧
    (∀ h, GoMap.get s.w.watchers id = some h →
      (BuildConfigDeleted s id).2 = [h] ∧
      (∀ k, GoMap.get (BuildConfigDeleted s id).1.w.watchers k =
        if k = id then none else GoMap.get s.w.watchers k) ∧
      (BuildConfigDeleted s id).1.started[h]? = s.started[h]?.map Stop ∧
      (∀ i, i ≠ h → (BuildConfigDeleted s id).1.started[i]? = s.started[i]?)) := by
  constructor
  · intro hnone
    simp [BuildConfigDeleted, hnone]
  · intro h hsome
    refine ⟨?_, ?_, ?_, ?_⟩
    · simp [BuildConfigDeleted, hsome]
    · intro k
      simp [BuildConfigDeleted, hsome, GoMap.get_delete]
    · simp [BuildConfigDeleted, hsome, stopAt_getElem?_self]
    · intro i hi
      simp [BuildConfigDeleted, hsome, stopAt_getElem?_ne _ _ _ hi]

/-- Witness of C10: with one watcher registered under
`a`, the identity `b` is absent and the identity `a` is present. -/
theorem BuildConfigDeleted_spec_witness :
    BuildConfigDeleted oneWatcher "b" = (oneWatcher, []) ∧
    ((BuildConfigDeleted oneWatcher "a").2 = [0] ∧
      (∀ k, GoMap.get (BuildConfigDeleted oneWatcher "a").1.w.watchers k =
        if k = "a" then none else GoMap.get oneWatcher.w.watchers k) ∧
      (BuildConfigDeleted oneWatcher "a").1.started[0]? = oneWatcher.started[0]?.map Stop ∧
      (∀ i, i ≠ 0 → (BuildConfigDeleted oneWatcher "a").1.started[i]? = oneWatcher.started[i]?)) :=
  ⟨(BuildConfigDeleted_spec oneWatcher "b").1 (by decide),
   (BuildConfigDeleted_spec oneWatcher "a").2 0 (by decide)⟩

/-! ### pkg/watcher/buildcfg -/

open buildcfg

theorem Store.mem_Contains (s : Store) (k : String) :
    k ∈ Store.Contains s ↔ k ∈ s.map Prod.fst := by
  simp [Store.Contains, GoMap.keys]

theorem Store.mem_Contains_Delete (s : Store) (id k : String) :
    k ∈ Store.Contains (Store.Delete s id) ↔ k ≠ id ∧ k ∈ Store.Contains s := by
  simp only [Store.mem_Contains, Store.Delete, GoMap.delete, List.mem_map, List.mem_filter]
  constructor
  · rintro ⟨p, ⟨hp, hne⟩, rfl⟩
    exact ⟨by simpa using hne, p, hp, rfl⟩
  · rintro ⟨hne, p, hp, rfl⟩
    exact ⟨p, ⟨hp, by simpa using hne⟩, rfl⟩

theorem Store.mem_Contains_Update (s : Store) (id k : String) (obj : api.BuildConfig) :
    k ∈ Store.Contains (Store.Update s id obj) ↔ k = id ∨ k ∈ Store.Contains s := by
  have hd := Store.mem_Contains_Delete s id k
  simp only [Store.mem_Contains, Store.Delete] at hd
  simp only [Store.mem_Contains, Store.Update, GoMap.set, List.map_cons, List.mem_cons, hd]
  by_cases hk : k = id <;> simp [hk]

theorem addedIDs_append (a b : List Event) : addedIDs (a ++ b) = addedIDs a ++ addedIDs b := by
  induction a with
  | nil => rfl
  | cons e a ih => cases e <;> simp [addedIDs, ih]

theorem deletedIDs_append (a b : List Event) :
    deletedIDs (a ++ b) = deletedIDs a ++ deletedIDs b := by
  induction a with
  | nil => rfl
  | cons e a ih => cases e <;> simp [deletedIDs, ih]

theorem addedIDs_map_added (l : List api.BuildConfig) :
    addedIDs (l.map Event.BuildConfigAdded) = l.map (fun bc => bc.ID) := by
  induction l with
  | nil => rfl
  | cons bc l ih => simp [addedIDs, ih]

theorem deletedIDs_map_added (l : List api.BuildConfig) :
    deletedIDs (l.map Event.BuildConfigAdded) = [] := by
  induction l with
  | nil => rfl
  | cons bc l ih => simp [deletedIDs, ih]

theorem addedIDs_map_deleted (l : List String) :
    addedIDs (l.map Event.BuildConfigDeleted) = [] := by
  induction l with
  | nil => rfl
  | cons id l ih => simp [addedIDs, ih]

theorem deletedIDs_map_deleted (l : List String) :
    deletedIDs (l.map Event.BuildConfigDeleted) = l := by
  induction l with
  | nil => rfl
  | cons id l ih => simp [deletedIDs, ih]

theorem syncDeleted_spec (l : List String) (store : Store) (events : List Event) :
    (syncDeleted l (store, events)).2 = events ++ l.map Event.BuildConfigDeleted ∧
    ∀ k, k ∈ Store.Contains (syncDeleted l (store, events)).1 ↔
      k ∈ Store.Contains store ∧ k ∉ l := by
  induction l generalizing store events with
  | nil => simp [syncDeleted]
  | cons id l ih =>
    obtain ⟨h1, h2⟩ := ih (Store.Delete store id) (events ++ [Event.BuildConfigDeleted id])
    refine ⟨by simp [syncDeleted, h1], fun k => ?_⟩
    simp only [syncDeleted, h2, Store.mem_Contains_Delete, List.mem_cons, not_or]
    tauto

theorem syncItems_spec (items : List api.BuildConfig)
    (hnd : (items.map (fun bc => bc.ID)).Nodup)
    (ids : StringSet) (store : Store) (events : List Event) :
    (syncItems items (ids, store, events)).1 =
      ids.filter (fun x => decide (x ∉ items.map (fun bc => bc.ID))) ∧
    (∀ k, k ∈ Store.Contains (syncItems items (ids, store, events)).2.1 ↔
      k ∈ Store.Contains store ∨ (k ∈ items.map (fun bc => bc.ID) ∧ k ∉ ids)) ∧
    (syncItems items (ids, store, events)).2.2 =
      events ++ (items.filter (fun bc => decide (bc.ID ∉ ids))).map Event.BuildConfigAdded := by
  induction items generalizing ids store events with
  | nil => simp [syncItems]
  | cons bc rest ih =>
    rw [List.map_cons, List.nodup_cons] at hnd
    obtain ⟨hbc, hrest⟩ := hnd
    by_cases hhas : bc.ID ∈ ids
    · obtain ⟨h1, h2, h3⟩ := ih hrest (StringSet.Delete ids bc.ID) store events
      have hstep : syncItems (bc :: rest) (ids, store, events) =
          syncItems rest (StringSet.Delete ids bc.ID, store, events) := by
        simp [syncItems, StringSet.Has, hhas]
      rw [hstep]
      refine ⟨?_, ?_, ?_⟩
      · rw [h1]
        simp only [StringSet.Delete, List.filter_filter]
        apply List.filter_congr
        intro x _
        by_cases hx : x = bc.ID <;> simp [hx]
      · intro k
        rw [h2]
        simp only [StringSet.Delete, List.mem_filter, List.map_cons, List.mem_cons]
        constructor
        · rintro (h | ⟨hk, hn⟩)
          · exact Or.inl h
          · refine Or.inr ⟨Or.inr hk, fun hki => hn ⟨hki, ?_⟩⟩
            have : k ≠ bc.ID := fun e => hbc (e ▸ hk)
            simpa using this
        · rintro (h | ⟨hk | hk, hn⟩)
          · exact Or.inl h
          · exact absurd (hk ▸ hhas) hn
          · exact Or.inr ⟨hk, fun hki => hn hki.1⟩
      · rw [h3]
        congr 2
        rw [List.filter_cons]
        simp only [hhas, not_true_eq_false, decide_False, Bool.false_eq_true, if_false]
        apply List.filter_congr
        intro r hr
        have hne : r.ID ≠ bc.ID := fun e => hbc (e ▸ List.mem_map_of_mem (fun bc => bc.ID) hr)
        simp [StringSet.Delete, hne]
    · obtain ⟨h1, h2, h3⟩ := ih hrest ids (Store.Update store bc.ID bc)
        (events ++ [Event.BuildConfigAdded bc])
      have hstep : syncItems (bc :: rest) (ids, store, events) =
          syncItems rest (ids, Store.Update store bc.ID bc,
            events ++ [Event.BuildConfigAdded bc]) := by
        simp [syncItems, StringSet.Has, hhas]
      rw [hstep]
      refine ⟨?_, ?_, ?_⟩
      · rw [h1]
        apply List.filter_congr
        intro x hx
        have hne : x ≠ bc.ID := fun e => hhas (e ▸ hx)
        simp [hne]
      · intro k
        rw [h2]
        simp only [Store.mem_Contains_Update, List.map_cons, List.mem_cons]
        constructor
        · rintro ((h | h) | ⟨hk, hn⟩)
          · exact Or.inr ⟨Or.inl h, h ▸ hhas⟩
          · exact Or.inl h
          · exact Or.inr ⟨Or.inr hk, hn⟩
        · rintro (h | ⟨hk | hk, hn⟩)
          · exact Or.inl (Or.inr h)
          · exact Or.inl (Or.inl hk)
          · exact Or.inr ⟨hk, hn⟩
      · rw [h3, List.filter_cons]
        simp [hhas]

theorem sync_ok (w : buildConfigWatcher) (items : List api.BuildConfig) :
    sync w (.ok items) =
      ({ w with store := (syncDeleted
            (StringSet.List (syncItems items (Store.Contains w.store, w.store, [])).1)
            ((syncItems items (Store.Contains w.store, w.store, [])).2.1,
              (syncItems items (Store.Contains w.store, w.store, [])).2.2)).1 },
        (syncDeleted
            (StringSet.List (syncItems items (Store.Contains w.store, w.store, [])).1)
            ((syncItems items (Store.Contains w.store, w.store, [])).2.1,
              (syncItems items (Store.Contains w.store, w.store, [])).2.2)).2,
        none) := rfl

theorem sync_error (w : buildConfigWatcher) (e : String) :
    sync w (.error e) = (w, [], some e) := rfl

theorem count_of_nodup (l : List String) (a : String) (hl : l.Nodup) :
    l.count a = if a ∈ l then 1 else 0 := by
  by_cases h : a ∈ l
  · simp [h, List.count_eq_one_of_mem hl h]
  · simp [h, List.count_eq_zero_of_not_mem h]

theorem sync_events (w : buildConfigWatcher) (items : List api.BuildConfig)
    (hnd : (items.map (fun bc => bc.ID)).Nodup) :
    (sync w (.ok items)).2.1 =
      (items.filter (fun bc => decide (bc.ID ∉ Store.Contains w.store))).map
          Event.BuildConfigAdded ++
        (StringSet.List ((Store.Contains w.store).filter
          (fun x => decide (x ∉ items.map (fun bc => bc.ID))))).map Event.BuildConfigDeleted := by
  obtain ⟨h1, _, h3⟩ := syncItems_spec items hnd (Store.Contains w.store) w.store []
  rw [sync_ok]
  simp only [(syncDeleted_spec _ _ _).1, h1, h3, List.nil_append]

/-- C1: for every store and every successful fetch returning build configs with
pairwise distinct IDs, one run of `sync` returns no error, calls
`BuildConfigAdded` exactly once for each fetched ID that is not a key of the
store and for no other ID, calls `BuildConfigDeleted` exactly once for each key
of the store that is not a fetched ID and for no other ID, and leaves the
store with exactly the fetched IDs as keys. -/
theorem sync_diff (w : buildConfigWatcher) (items : List api.BuildConfig)
    (hnd : (items.map (fun bc => bc.ID)).Nodup) :
    (sync w (.ok items)).2.2 = none ∧
    (∀ id, (addedIDs (sync w (.ok items)).2.1).count id =
      if id ∈ items.map (fun bc => bc.ID) ∧ id ∉ Store.Contains w.store then 1 else 0) ∧
    (∀ id, (deletedIDs (sync w (.ok items)).2.1).count id =
      if id ∈ Store.Contains w.store ∧ id ∉ items.map (fun bc => bc.ID) then 1 else 0) ∧
    (∀ id, id ∈ Store.Contains (sync w (.ok items)).1.store ↔
      id ∈ items.map (fun bc => bc.ID)) := by
  refine ⟨rfl, ?_, ?_, ?_⟩
  · intro id
    rw [sync_events w items hnd, addedIDs_append, addedIDs_map_added, addedIDs_map_deleted,
      List.append_nil]
    have hsub : ((items.filter (fun bc => decide (bc.ID ∉ Store.Contains w.store))).map
        (fun bc => bc.ID)).Nodup :=
      List.Nodup.sublist (List.Sublist.map _ (List.filter_sublist _)) hnd
    rw [count_of_nodup _ _ hsub]
    congr 1
    simp only [List.mem_map, List.mem_filter, decide_eq_true_eq, eq_iff_iff]
    constructor
    · rintro ⟨bc, ⟨hbc, hn⟩, rfl⟩
      exact ⟨⟨bc, hbc, rfl⟩, hn⟩
    · rintro ⟨⟨bc, hbc, rfl⟩, hn⟩
      exact ⟨bc, ⟨hbc, hn⟩, rfl⟩
  · intro id
    rw [sync_events w items hnd, deletedIDs_append, deletedIDs_map_added,
      deletedIDs_map_deleted, List.nil_append]
    have hperm := List.perm_insertionSort (fun a b : String => a ≤ b)
      ((Store.Contains w.store).filter (fun x => decide (x ∉ items.map (fun bc => bc.ID))))
    have hnodup : ((Store.Contains w.store).filter
        (fun x => decide (x ∉ items.map (fun bc => bc.ID)))).Nodup :=
      List.Nodup.filter _ (List.nodup_dedup _)
    unfold StringSet.List
    rw [hperm.count_eq, count_of_nodup _ _ hnodup]
    congr 1
    simp [List.mem_filter]
  · intro id
    obtain ⟨h1, h2, _⟩ := syncItems_spec items hnd (Store.Contains w.store) w.store []
    rw [sync_ok]
    simp only [(syncDeleted_spec _ _ _).2, h2, h1]
    have hperm := List.perm_insertionSort (fun a b : String => a ≤ b)
      ((Store.Contains w.store).filter (fun x => decide (x ∉ items.map (fun bc => bc.ID))))
    unfold StringSet.List
    rw [hperm.mem_iff]
    simp only [List.mem_filter, decide_eq_true_eq]
    tauto

/-- Witness of C1: the store holds `a`, the fetch returns `a` and `b`. -/
theorem sync_diff_witness :
    (sync { store := [("a", devConfig)], stop := false } (.ok [devConfig, otherConfig])).2.2 =
      none ∧
    (∀ id, (addedIDs (sync { store := [("a", devConfig)], stop := false }
        (.ok [devConfig, otherConfig])).2.1).count id =
      if id ∈ [devConfig, otherConfig].map (fun bc => bc.ID) ∧
        id ∉ Store.Contains [("a", devConfig)] then 1 else 0) ∧
    (∀ id, (deletedIDs (sync { store := [("a", devConfig)], stop := false }
        (.ok [devConfig, otherConfig])).2.1).count id =
      if id ∈ Store.Contains [("a", devConfig)] ∧
        id ∉ [devConfig, otherConfig].map (fun bc => bc.ID) then 1 else 0) ∧
    (∀ id, id ∈ Store.Contains (sync { store := [("a", devConfig)], stop := false }
        (.ok [devConfig, otherConfig])).1.store ↔
      id ∈ [devConfig, otherConfig].map (fun bc => bc.ID)) :=
  sync_diff { store := [("a", devConfig)], stop := false } [devConfig, otherConfig] (by decide)

end Gitpoll
